import Mathlib

/-!
Verification development for the trends_library content pipeline.

Strings are embedded as `List Char`.  The Python string operations used by the
repository (`str.replace`, `in`, `str.count`, `str.strip`, `str.split`,
`str.lower`, `str.title`, slicing) are modelled below; character classes
(`isalnum`, `isspace`, case mapping) coincide with the Python semantics
exactly on ASCII characters and diverge beyond them (Python is
Unicode-aware), so theorems whose truth depends on those classes for
arbitrary input are stated with an explicit ASCII hypothesis on that input.
Calls into dynamically-typed Python functions are modelled together with the
keyword-argument binding test Python performs at call time, so that a call
whose keyword names do not match the callee signature is an error value.
-/

/-- Fuelled worker for `pyReplace`; every recursive call strictly shortens
the scanned list, so fuel `s.length + 1` always suffices. -/
def pyReplaceF : Nat → List Char → List Char → List Char → List Char
  | 0, s, _, _ => s
  | fuel + 1, s, old, new =>
    match s, old with
    | [], [] => new
    | c :: cs, [] => new ++ c :: pyReplaceF fuel cs [] new
    | [], _ :: _ => []
    | c :: cs, o :: os =>
      if (o :: os).isPrefixOf (c :: cs) then
        new ++ pyReplaceF fuel (cs.drop os.length) (o :: os) new
      else
        c :: pyReplaceF fuel cs (o :: os) new

/-- Python `s.replace(old, new)`: replace every non-overlapping occurrence of
`old` in `s` by `new`, scanning left to right.  With `old = ""` Python inserts
`new` before every character and at the end; the repository never passes an
empty pattern, but the model is faithful anyway. -/
def pyReplace (s old new : List Char) : List Char :=
  pyReplaceF (s.length + 1) s old new

/-- Fuelled worker for `pyCount`. -/
def pyCountF : Nat → List Char → List Char → Nat
  | 0, _, _ => 0
  | fuel + 1, s, old =>
    match s, old with
    | s, [] => s.length + 1
    | [], _ :: _ => 0
    | c :: cs, o :: os =>
      if (o :: os).isPrefixOf (c :: cs) then pyCountF fuel (cs.drop os.length) (o :: os) + 1
      else pyCountF fuel cs (o :: os)

/-- Python `s.count(sub)`: number of non-overlapping occurrences, scanning
left to right. -/
def pyCount (s sub : List Char) : Nat :=
  pyCountF (s.length + 1) s sub

/-- Python `s.strip(c)` for a single strip character: drop the character from
both ends. -/
def pyStrip (s : List Char) (c : Char) : List Char :=
  (s.dropWhile (· == c)).rdropWhile (· == c)

/-- Python `s.split("\n")`: split at every newline, keeping empty parts. -/
def pySplitNl : List Char → List (List Char)
  | [] => [[]]
  | c :: cs =>
    if c = '\n' then [] :: pySplitNl cs
    else
      match pySplitNl cs with
      | [] => [[c]]
      | l :: ls => (c :: l) :: ls

/-- The ASCII part of Python `str.isspace` (the characters Python treats as
whitespace in `str.strip()` with no argument). -/
def pyIsSpace (c : Char) : Bool :=
  c = ' ' || c = '\t' || c = '\n' || c = '\r' || c = '\x0b' || c = '\x0c'

/-- Helper for Python `str.title` (ASCII fragment): a letter directly after a
non-letter is upper-cased, any other letter is lower-cased. -/
def pyTitleAux : Bool → List Char → List Char
  | _, [] => []
  | prevCased, c :: cs =>
    (if c.isAlpha then (if prevCased then c.toLower else c.toUpper) else c)
      :: pyTitleAux c.isAlpha cs

/-- Python `s.title()` (ASCII fragment). -/
def pyTitle (s : List Char) : List Char := pyTitleAux false s

/-- A pattern has no self-overlap: no proper nonempty suffix of `u` equals a
prefix of `u`.  Both literal patterns the index update replaces have this
property, which makes `pyReplace` act on disjoint occurrences. -/
def BorderFree (u : List Char) : Prop :=
  ∀ k, k < u.length → 0 < k → u.drop (u.length - k) ≠ u.take k

/-! ## scripts/generate_html.py -/

/-- `fetch_trending_search` (scripts/generate_html.py lines 14-30).  The try
block builds the pytrends client, fetches the trending-searches frame and
returns its first cell; the except-everything handler substitutes the literal
"World news".  The two provider steps and the resulting first column are
explicit inputs. -/
def fetchTrendingSearch (initOutcome : Except (List Char) Unit)
    (dfColumn : Except (List Char) (List (List Char))) : List Char :=
  match initOutcome with
  | Except.error _ => "World news".toList
  | Except.ok _ =>
    match dfColumn with
    | Except.error _ => "World news".toList
    | Except.ok rows =>
      match rows with
      | [] => "World news".toList
      | top :: _ => top

/-- The article text chosen by `main` (scripts/generate_html.py lines 96-115):
the generated text when a key is configured and generation succeeds, otherwise
one of the two fallback texts (the caught error message is interpolated). -/
def articleText (keySet : Bool) (gen : Except (List Char) (List Char))
    (trend : List Char) : List Char :=
  if keySet then
    match gen with
    | Except.ok t => t
    | Except.error e =>
        "News update for ".toList ++ trend ++ "\n\n".toList ++
        "An error occurred while generating the article: ".toList ++ e ++
        ".\n".toList ++
        "Please check your API configuration and try again.".toList
  else
    "News update for ".toList ++ trend ++ "\n\n".toList ++
    "Automatic article generation is disabled because the OPENAI_API_KEY environment variable is not set. Please add this secret in your repository settings to enable AI-generated news.".toList

/-- `[ln for ln in article_text.split("\n") if ln.strip()]`
(scripts/generate_html.py line 118). -/
def articleLines (t : List Char) : List (List Char) :=
  (pySplitNl t).filter (fun ln => ln.any (fun c => !(pyIsSpace c)))

/-- `title = lines[0] if lines else trend.title()`
(scripts/generate_html.py line 119). -/
def extractTitle (t trend : List Char) : List Char :=
  match articleLines t with
  | [] => pyTitle trend
  | ln :: _ => ln

/-- The replacement loop of the slug pipeline (scripts/generate_html.py lines
122-124): lower-case the title, then replace each listed character by a
hyphen.  `Char.toLower` agrees with Python `str.lower` exactly on ASCII
characters and is the identity beyond them, whereas Python also lower-cases
non-ASCII letters (it maps 'É' to 'é'); theorems quantifying over titles are
therefore stated with an ASCII-title hypothesis, the domain on which this
definition computes exactly what the program computes. -/
def slugReplaced (title : List Char) : List Char :=
  List.foldl (fun s c => pyReplace s [c] ['-']) (title.map Char.toLower)
    [' ', ',', '.', ':', '?', '!', ';', '\n']

/-- The slug before truncation (scripts/generate_html.py lines 125-126, up to
`.strip("-")`): keep only alphanumerics and hyphens, strip hyphens from both
ends.  `Char.isAlphanum` agrees with Python `str.isalnum` exactly on ASCII
characters but is false beyond them, whereas Python keeps every Unicode
alphanumeric (it keeps 'é'); theorems quantifying over titles are therefore
stated with an ASCII-title hypothesis, the domain on which this definition
computes exactly what the program computes. -/
def slugCore (title : List Char) : List Char :=
  pyStrip ((slugReplaced title).filter (fun c => c.isAlphanum || c == '-')) '-'

/-- The full slug pipeline (scripts/generate_html.py lines 121-126):
`slug.strip("-")[:50]`. -/
def slugify (title : List Char) : List Char := (slugCore title).take 50

/-- `create_html` (scripts/generate_html.py lines 59-75): the article page
with newlines of the body turned into `<br>`. -/
def createHtml (title body date : List Char) : List Char :=
  "<!DOCTYPE html>\n<html lang=\"en\">\n<head>\n    <meta charset=\"UTF-8\">\n    <title>".toList
    ++ title
    ++ "</title>\n    <meta name=\"description\" content=\"".toList
    ++ title
    ++ "\">\n</head>\n<body>\n    <h1>".toList
    ++ title
    ++ "</h1>\n    <p><em>".toList
    ++ date
    ++ "</em></p>\n    ".toList
    ++ pyReplace body "\n".toList "<br>".toList
    ++ "\n</body>\n</html>\n".toList

/-- The closing list tag searched for by the index update. -/
def ulClose : List Char := "</ul>".toList

/-- The closing body tag searched for by the index update. -/
def bodyClose : List Char := "</body>".toList

/-- The index page synthesized when no index file exists
(scripts/generate_html.py lines 146-152). -/
def defaultIndex : List Char :=
  "<!DOCTYPE html>\n<html><head><meta charset=\"UTF-8\"><title>Latest News</title></head><body>\n<h1>Latest News</h1>\n<ul>\n</ul>\n</body></html>\n".toList

/-- The index update of `main` (scripts/generate_html.py lines 154-158): if
the link text is not already present, synthesize a `</ul>` before `</body>`
when no `</ul>` exists, then put the link before every `</ul>`. -/
def updateIndex (content link : List Char) : List Char :=
  if link <:+: content then content
  else
    pyReplace
      (if ulClose <:+: content then content
       else pyReplace content bodyClose (ulClose ++ bodyClose))
      ulClose (link ++ ulClose)

/-- The anchor-list entry built by `main` (scripts/generate_html.py line
141). -/
def linkFor (filename title today : List Char) : List Char :=
  "<li><a href=\"articles/".toList ++ filename ++ "\">".toList ++ title
    ++ " (".toList ++ today ++ ")</a></li>\n".toList

/-- Result of one fallback-pipeline run: the article file it writes and the
index page it writes back. -/
structure RunResult where
  articleFilename : List Char
  articleHtml : List Char
  indexContent : List Char

/-- One run of `main` (scripts/generate_html.py lines 77-161) after the trend
term is fetched: pick the article text, extract title and slug, render the
article page, and update (or create) the index page.  `existingIndex` is the
current content of docs/index.html, or `none` when the file does not exist. -/
def mainRun (keySet : Bool) (gen : Except (List Char) (List Char))
    (trend today : List Char) (existingIndex : Option (List Char)) : RunResult :=
  let t := articleText keySet gen trend
  let title := extractTitle t trend
  let slug := slugify title
  let fname := today ++ "-".toList ++ slug ++ ".html".toList
  let html := createHtml title t today
  let link := linkFor fname title today
  let idx0 :=
    match existingIndex with
    | some c => c
    | none => defaultIndex
  { articleFilename := fname, articleHtml := html,
    indexContent := updateIndex idx0 link }

/-- The list opening tag named by the specification of the index update. -/
def ulOpen : List Char := "<ul>".toList

/-- Modelled from the spec (4.6 step 8 and 9, canonical rule): the insertion
routine the specification describes, which is not the one in
scripts/generate_html.py — insert the entry directly after the first
occurrence of the opening tag, so it becomes the first item. -/
def insertAfterOpen : List Char → List Char → List Char
  | [], _ => []
  | c :: cs, link =>
    if ulOpen.isPrefixOf (c :: cs) then ulOpen ++ link ++ (c :: cs).drop ulOpen.length
    else c :: insertAfterOpen cs link

/-- Modelled from the spec (4.6 step 8): skip when the identical link text is
already present, otherwise insert as first item after the opening tag. -/
def specInsertFirstItem (content link : List Char) : List Char :=
  if link <:+: content then content else insertAfterOpen content link

/-! ## publisher/publisher.py -/

/-- `requests.Response.raise_for_status` (external library behaviour relied on
by publisher/publisher.py line 37): an `HTTPError` is raised exactly for the
4xx and 5xx status codes. -/
def raiseForStatus (status : Nat) : Bool :=
  decide (400 ≤ status) && decide (status < 600)

/-- `publish_article` (publisher/publisher.py lines 17-38): POST the payload,
raise on an error status, otherwise return the parsed JSON body of the CMS
response.  `status` and `responseBody` are the CMS response; the error value
carries both. -/
def publishArticle (status : Nat) (responseBody : List Char) :
    Except (Nat × List Char) (List Char) :=
  if raiseForStatus status then Except.error (status, responseBody)
  else Except.ok responseBody

/-! ## trends_crawler/crawler.py and the Celery tasks -/

/-- A trend row as built by `fetch_trending_searches`
(trends_crawler/crawler.py lines 31-38). -/
structure TrendRecord where
  country : List Char
  category : Option (List Char)
  title : List Char
  traffic_value : Option Nat
  ts_collected : List Char

/-- `fetch_trending_searches` (trends_crawler/crawler.py lines 14-39): map the
provider column into records stamped with the current UTC timestamp and the
caller country and category.  The provider column and the timestamp are
explicit inputs. -/
def fetch_trending_searches (country_code : List Char)
    (category : Option (List Char)) (nowIso : List Char)
    (providerTitles : List (List Char)) : List TrendRecord :=
  providerTitles.map (fun t =>
    { country := country_code, category := category, title := t,
      traffic_value := none, ts_collected := nowIso })

/-- Python keyword binding: a call written with keyword arguments only binds
when every keyword names a formal parameter; otherwise the call raises
`TypeError` before the callee body runs.  (Every formal involved here has a
default, so only unexpected keywords can fail.) -/
def acceptsKwargs (formals : List (List Char)) (kwargs : List (List Char)) : Bool :=
  kwargs.all (fun k => formals.contains k)

/-- Formal parameter names of `fetch_trending_searches`
(trends_crawler/crawler.py line 14). -/
def fetchTrendingSearchesFormals : List (List Char) :=
  ["country_code".toList, "category".toList]

/-- Keyword names used by the call in `collect_trends_task`
(celery_app.py line 54). -/
def collectTrendsCallKwargs : List (List Char) :=
  ["country".toList, "category".toList, "period".toList]

/-- `collect_trends_task` (celery_app.py lines 41-54): delegate to
`fetch_trending_searches(country=country, category=category, period=period)`.
The keyword binding of that call is checked against the callee signature. -/
def collectTrendsTask (country category : List Char) (period : Option (List Char))
    (nowIso : List Char) (providerTitles : List (List Char)) :
    Except (List Char) (List TrendRecord) :=
  if acceptsKwargs fetchTrendingSearchesFormals collectTrendsCallKwargs then
    Except.ok (fetch_trending_searches country (some category) nowIso providerTitles)
  else
    Except.error "TypeError: fetch_trending_searches got an unexpected keyword argument".toList

/-! ## image_creator/creator.py and generate_content_task -/

/-- The alt-text derivation of `generate_image` (image_creator/creator.py line
37): `(prompt[:125] + "...") if len(prompt) > 125 else prompt`. -/
def altTextOf (prompt : List Char) : List Char :=
  if 125 < prompt.length then prompt.take 125 ++ "...".toList else prompt

/-- `generate_image` (image_creator/creator.py lines 18-42): returns a dict
with keys prompt, image_url, alt_text in insertion order.  The URL extracted
from the provider response is an explicit input; `size` is forwarded to the
provider only. -/
def generate_image (prompt : List Char) (size : List Char) (imageUrl : List Char) :
    List (List Char × List Char) :=
  let _ := size
  [("prompt".toList, prompt), ("image_url".toList, imageUrl),
   ("alt_text".toList, altTextOf prompt)]

/-- Python tuple unpacking `a, b = it` of an iterable: succeeds exactly when
the iteration yields two values, otherwise raises `ValueError`.  Iterating a
dict yields its keys in insertion order. -/
def tupleUnpack2 (values : List (List Char)) :
    Except (List Char) (List Char × List Char) :=
  match values with
  | [a, b] => Except.ok (a, b)
  | _ => Except.error "ValueError: values to unpack do not number two".toList

/-- Python dict update `d[k] = v` semantics used for `{**article_data, ...}`
(celery_app.py lines 87-93): an existing key keeps its position and gets the
new value, a new key is appended. -/
def dictSet : List (List Char × List Char) → List Char → List Char →
    List (List Char × List Char)
  | [], k, v => [(k, v)]
  | (k1, v1) :: rest, k, v =>
    if k1 = k then (k1, v) :: rest else (k1, v1) :: dictSet rest k v

/-- Formal parameter names of `generate_article`
(article_generator/generator.py line 18). -/
def generateArticleFormals : List (List Char) :=
  ["topic".toList, "language".toList]

/-- Keyword names used by the `generate_article` call in
`generate_content_task` (celery_app.py lines 77-81). -/
def generateContentArticleKwargs : List (List Char) :=
  ["trend_title".toList, "country".toList, "category".toList]

/-- `generate_content_task` (celery_app.py lines 57-97): call the article
generator, tuple-unpack the image-generator result into
`image_url, alt_text`, merge the publish payload, publish, and return the CMS
response.  Keyword binding and tuple unpacking are modelled explicitly;
`articleData` stands for the article-generator result, `cmsStatus`/`cmsBody`
for the CMS response. -/
def generateContentTask (country category title : List Char)
    (articleData : List (List Char × List Char)) (imageUrl : List Char)
    (cmsStatus : Nat) (cmsBody : List Char) : Except (List Char) (List Char) :=
  if acceptsKwargs generateArticleFormals generateContentArticleKwargs then
    match tupleUnpack2 ((generate_image title ("1024x1024").toList imageUrl).map Prod.fst) with
    | Except.error e => Except.error e
    | Except.ok (imgU, altT) =>
      let _payload :=
        dictSet (dictSet (dictSet (dictSet articleData ("image_url").toList imgU)
          ("alt_text").toList altT) ("country").toList country)
          ("category").toList category
      match publishArticle cmsStatus cmsBody with
      | Except.error _ => Except.error "HTTPError".toList
      | Except.ok b => Except.ok b
  else
    Except.error "TypeError: generate_article got an unexpected keyword argument".toList

/-! ## Helper lemmas -/

theorem pyReplaceF_irrel (f1 : Nat) :
    ∀ f2 s old new, s.length < f1 → s.length < f2 →
      pyReplaceF f1 s old new = pyReplaceF f2 s old new := by
  induction f1 with
  | zero =>
    intro f2 s old new h1 _
    omega
  | succ f1 ih =>
    intro f2 s old new h1 h2
    cases f2 with
    | zero => omega
    | succ f2 =>
      cases s with
      | nil =>
        cases old with
        | nil => rfl
        | cons o os => rfl
      | cons c cs =>
        cases old with
        | nil =>
          simp only [pyReplaceF]
          rw [ih f2 cs [] new (by simp at h1; omega) (by simp at h2; omega)]
        | cons o os =>
          simp only [pyReplaceF]
          by_cases hp : (o :: os).isPrefixOf (c :: cs)
          · rw [if_pos hp, if_pos hp,
              ih f2 (cs.drop os.length) (o :: os) new
                (by simp at h1 ⊢; omega) (by simp at h2 ⊢; omega)]
          · rw [if_neg hp, if_neg hp,
              ih f2 cs (o :: os) new (by simp at h1; omega) (by simp at h2; omega)]

theorem pyReplace_nil (old new : List Char) :
    pyReplace [] old new = if old = [] then new else [] := by
  cases old with
  | nil => rfl
  | cons o os =>
    rw [if_neg (by simp)]
    rfl

theorem pyReplaceF_succ_cons (fuel : Nat) (c : Char) (cs : List Char) (o : Char)
    (os new : List Char) :
    pyReplaceF (fuel + 1) (c :: cs) (o :: os) new =
      if (o :: os).isPrefixOf (c :: cs) then
        new ++ pyReplaceF fuel (cs.drop os.length) (o :: os) new
      else
        c :: pyReplaceF fuel cs (o :: os) new := rfl

theorem pyReplace_cons (c : Char) (cs : List Char) (o : Char) (os new : List Char) :
    pyReplace (c :: cs) (o :: os) new =
      if (o :: os).isPrefixOf (c :: cs) then
        new ++ pyReplace (cs.drop os.length) (o :: os) new
      else
        c :: pyReplace cs (o :: os) new := by
  unfold pyReplace
  rw [show (c :: cs).length + 1 = cs.length + 1 + 1 from rfl, pyReplaceF_succ_cons]
  by_cases hp : (o :: os).isPrefixOf (c :: cs)
  · rw [if_pos hp, if_pos hp,
      pyReplaceF_irrel (cs.length + 1) ((cs.drop os.length).length + 1)
        (cs.drop os.length) (o :: os) new (by simp; omega) (by omega)]
  · rw [if_neg hp, if_neg hp]

theorem uint32_le_iff (a b : UInt32) : a ≤ b ↔ a.toNat ≤ b.toNat := by
  simp [UInt32.le_def, BitVec.le_def]
  exact Iff.rfl

theorem toLower_isUpper (x : Char) : (Char.toLower x).isUpper = false := by
  unfold Char.toLower
  by_cases h : x.toNat ≥ 65 ∧ x.toNat ≤ 90
  · rw [if_pos h]
    have hv : (x.toNat + 32).isValidChar := by
      left
      omega
    have ht : (Char.ofNat (x.toNat + 32)).toNat = x.toNat + 32 := by
      unfold Char.ofNat
      rw [dif_pos hv]
      simp [Char.ofNatAux, Char.toNat, UInt32.toNat]
    unfold Char.isUpper
    have h90 : ¬ ((Char.ofNat (x.toNat + 32)).val ≤ 90) := by
      rw [uint32_le_iff]
      have h2 : (Char.ofNat (x.toNat + 32)).val.toNat = x.toNat + 32 := ht
      rw [h2]
      have h3 : (90 : UInt32).toNat = 90 := rfl
      rw [h3]
      omega
    simp [h90]
  · rw [if_neg h]
    unfold Char.isUpper
    by_cases h65 : (65 : UInt32) ≤ x.val
    · have hle : ¬ (x.val ≤ 90) := by
        rw [uint32_le_iff] at h65 ⊢
        have e65 : (65 : UInt32).toNat = 65 := rfl
        have e90 : (90 : UInt32).toNat = 90 := rfl
        rw [e65] at h65
        rw [e90]
        simp only [Char.toNat] at h
        omega
      simp [hle]
    · simp [h65]

theorem pyReplace_single (a b : Char) (s : List Char) :
    pyReplace s [a] [b] = s.map (fun x => if x = a then b else x) := by
  induction s with
  | nil => rfl
  | cons c cs ih =>
    rw [pyReplace_cons, List.map_cons]
    have hp : ([a].isPrefixOf (c :: cs)) = (a == c) := by
      simp [List.isPrefixOf]
    rw [hp]
    by_cases hac : a = c
    · have hb : (a == c) = true := by
        simp [hac]
      rw [if_pos hb]
      have hc : (if c = a then b else c) = b := by
        rw [if_pos hac.symm]
      rw [hc, List.length_nil, List.drop_zero, ih]
      rfl
    · have hb : ¬ ((a == c) = true) := by
        simp [hac]
      rw [if_neg hb]
      have hc : (if c = a then b else c) = c := by
        rw [if_neg (fun hh => hac hh.symm)]
      rw [hc, ih]

theorem mem_replace_single (s : List Char) (a b c : Char)
    (h : c ∈ pyReplace s [a] [b]) : c = b ∨ c ∈ s := by
  rw [pyReplace_single] at h
  obtain ⟨x, hx, hfx⟩ := List.mem_map.mp h
  by_cases hxa : x = a
  · left
    rw [← hfx, if_pos hxa]
  · right
    rw [← hfx, if_neg hxa]
    exact hx

theorem mem_foldl_replace (cl : List Char) :
    ∀ s c, c ∈ List.foldl (fun t a => pyReplace t [a] ['-']) s cl → c = '-' ∨ c ∈ s := by
  induction cl with
  | nil =>
    intro s c h
    exact Or.inr h
  | cons a cl ih =>
    intro s c h
    rw [List.foldl_cons] at h
    rcases ih _ c h with h1 | h1
    · exact Or.inl h1
    · exact mem_replace_single s a '-' c h1

theorem mem_slugCore (t : List Char) (c : Char) (h : c ∈ slugCore t) :
    (c.isAlphanum || c == '-') = true ∧ c ∈ slugReplaced t := by
  unfold slugCore pyStrip at h
  have h2 := ( List.rdropWhile_prefix (· == '-')
    (((slugReplaced t).filter (fun c => c.isAlphanum || c == '-')).dropWhile (· == '-'))).subset h
  have h1 : c ∈ (slugReplaced t).filter (fun c => c.isAlphanum || c == '-') :=
    (List.dropWhile_suffix (· == '-')).subset h2
  have h3 := List.mem_filter.mp h1
  exact ⟨h3.2, h3.1⟩

theorem slug_char_good (t : List Char) (c : Char) (h : c ∈ slugify t) :
    (c.isLower || c.isDigit || (c == '-')) = true := by
  have h0 : c ∈ slugCore t := List.take_subset 50 (slugCore t) h
  obtain ⟨hcls, hmem⟩ := mem_slugCore t c h0
  by_cases hd : c = '-'
  · simp [hd]
  · have hmem2 : c ∈ t.map Char.toLower := by
      rcases mem_foldl_replace [' ', ',', '.', ':', '?', '!', ';', '\n'] _ c hmem with h1 | h1
      · exact absurd h1 hd
      · exact h1
    obtain ⟨x, hx, hlx⟩ := List.mem_map.mp hmem2
    have hup : c.isUpper = false := by
      rw [← hlx]
      exact toLower_isUpper x
    have hde : (c == '-') = false := by
      simp [hd]
    rw [hde, Bool.or_false] at hcls ⊢
    rw [Char.isAlphanum, Char.isAlpha, hup, Bool.false_or] at hcls
    exact hcls

theorem prefix_head (l1 l2 : List Char) (h : l1 <+: l2) (c : Char)
    (hh : l1.head? = some c) : l2.head? = some c := by
  obtain ⟨r, rfl⟩ := h
  cases l1 with
  | nil => simp at hh
  | cons a l => simpa using hh

theorem slugCore_head (t : List Char) (c : Char) (h : (slugCore t).head? = some c) :
    c ≠ '-' := by
  unfold slugCore pyStrip at h
  have h2 : (((slugReplaced t).filter (fun c => c.isAlphanum || c == '-')).dropWhile
      (· == '-')).head? = some c :=
    prefix_head _ _ ( List.rdropWhile_prefix (· == '-') _) c h
  cases hdw : ((slugReplaced t).filter (fun c => c.isAlphanum || c == '-')).dropWhile
      (· == '-') with
  | nil =>
    rw [hdw] at h2
    simp at h2
  | cons a l =>
    rw [hdw] at h2
    have hne : ((slugReplaced t).filter (fun c => c.isAlphanum || c == '-')).dropWhile
        (· == '-') ≠ [] := by
      rw [hdw]
      simp
    have h3 := List.head_dropWhile_not (· == '-')
      ((slugReplaced t).filter (fun c => c.isAlphanum || c == '-')) hne
    have h4 : a = c := by
      simpa using h2
    have h5 : (((slugReplaced t).filter (fun c => c.isAlphanum || c == '-')).dropWhile
        (· == '-')).head hne = a := by
      simp [hdw]
    rw [h5, h4] at h3
    intro hcon
    rw [hcon] at h3
    simp at h3

theorem slugify_head_not_hyphen (t : List Char) (c : Char)
    (h : (slugify t).head? = some c) : c ≠ '-' := by
  apply slugCore_head t c
  unfold slugify at h
  cases hsc : slugCore t with
  | nil =>
    rw [hsc] at h
    simp at h
  | cons a l =>
    rw [hsc] at h
    simp only [List.take_succ_cons, List.head?_cons] at h
    simp [h]

theorem slugify_length (t : List Char) : (slugify t).length ≤ 50 := by
  unfold slugify
  exact List.length_take_le 50 (slugCore t)

theorem slugCore_last (t : List Char) (hcon : (slugCore t).getLast? = some '-') : False := by
  unfold slugCore pyStrip at hcon
  have hne : (((slugReplaced t).filter (fun c => c.isAlphanum || c == '-')).dropWhile
      (· == '-')).rdropWhile (· == '-') ≠ [] := by
    intro hnil
    rw [hnil] at hcon
    simp at hcon
  have h3 := List.rdropWhile_last_not (· == '-')
    (((slugReplaced t).filter (fun c => c.isAlphanum || c == '-')).dropWhile (· == '-')) hne
  have h2 := List.getLast?_eq_getLast
    ((((slugReplaced t).filter (fun c => c.isAlphanum || c == '-')).dropWhile
      (· == '-')).rdropWhile (· == '-')) hne
  rw [h2] at hcon
  have h4 := Option.some_injective _ hcon
  rw [h4] at h3
  simp at h3

theorem slugify_last (t : List Char) (hlen : (slugCore t).length ≤ 50) :
    (slugify t).getLast? ≠ some '-' := by
  unfold slugify
  rw [List.take_of_length_le hlen]
  intro hcon
  exact slugCore_last t hcon

/-! ## Claim theorems -/

set_option maxRecDepth 10000 in
/-- C3, counterexample: for the 51-character title of 49 letters `a`, a space
and a final `a`, the slug pipeline of scripts/generate_html.py produces a slug
whose last character is a hyphen (the strip happens before the truncation to
50, so the truncation can re-expose a trailing hyphen), refuting the claimed
`no trailing hyphen` invariant. -/
theorem slugify_trailing_hyphen_cex :
    (slugify (List.replicate 49 'a' ++ [' ', 'a'])).getLast? = some '-' ∧
    (slugify (List.replicate 49 'a' ++ [' ', 'a'])).length = 50 := by
  constructor
  · decide
  · decide

/-- C3, amended: for every title consisting of ASCII characters — the domain
on which this embedding of `isalnum`/`lower` coincides exactly with the
Python semantics — every character of `slugify t` is a lower-case letter, a
digit or a hyphen; the first character is never a hyphen; the length is at
most 50; and the last character is not a hyphen provided the stripped slug
did not exceed 50 characters (that is, whenever the final truncation was not
engaged).  The original claim fails in two ways: a trailing hyphen can
survive via truncation (the counterexample), and for titles with non-ASCII
characters Python keeps every Unicode alphanumeric, so a title such as
"Beyoncé" yields the slug "beyoncé" whose final character is outside
[a-z0-9-]; the ASCII restriction excludes that regime instead of proving a
charset the program does not have. -/
theorem slugify_charset_amended (t : List Char)
    (hA : ∀ c ∈ t, c.toNat < 128) :
    (∀ c ∈ slugify t, (c.isLower || c.isDigit || (c == '-')) = true) ∧
    (∀ c, (slugify t).head? = some c → c ≠ '-') ∧
    (slugify t).length ≤ 50 ∧
    ((slugCore t).length ≤ 50 → (slugify t).getLast? ≠ some '-') :=
  ⟨fun c hc => slug_char_good t c hc,
   fun c hc => slugify_head_not_hyphen t c hc,
   slugify_length t,
   fun h => slugify_last t h⟩

set_option maxRecDepth 10000 in
/-- Witness for the amended C3 theorem at the concrete ASCII title
"Hello, World!". -/
theorem slugify_charset_amended_w :
    'h' ≠ '-' ∧ (slugify ("Hello, World!".toList)).getLast? ≠ some '-' :=
  ⟨(slugify_charset_amended ("Hello, World!".toList) (by decide)).2.1 'h' (by decide),
   (slugify_charset_amended ("Hello, World!".toList) (by decide)).2.2.2 (by decide)⟩

set_option maxRecDepth 10000 in
/-- C4, counterexample: for a 126-character prompt the alt-text computed by
`generate_image` (image_creator/creator.py line 37) is `prompt[:125] + "..."`,
which is 128 characters long, not exactly 125 as claimed. -/
theorem alt_text_length_cex :
    (altTextOf (List.replicate 126 'a')).length = 128 ∧
    (altTextOf (List.replicate 126 'a')).length ≠ 125 := by
  constructor
  · decide
  · decide

/-- C4, amended: `generate_image` returns the prompt itself as alt-text when
it has at most 125 characters, and otherwise the first 125 characters of the
prompt followed by "...", for a total length of 128 characters
(`min(len(P), 125) + 3`). -/
theorem alt_text_amended (p : List Char) :
    (p.length ≤ 125 → altTextOf p = p) ∧
    (125 < p.length →
      altTextOf p = p.take 125 ++ "...".toList ∧ (altTextOf p).length = 128) := by
  constructor
  · intro h
    unfold altTextOf
    rw [if_neg (by omega)]
  · intro h
    unfold altTextOf
    rw [if_pos h]
    refine ⟨rfl, ?_⟩
    rw [List.length_append, List.length_take]
    have h3 : ("...".toList).length = 3 := by decide
    rw [h3]
    omega

set_option maxRecDepth 10000 in
/-- Witness for the amended C4 theorem at a short and a long prompt. -/
theorem alt_text_amended_w :
    altTextOf ("hi".toList) = "hi".toList ∧
    (altTextOf (List.replicate 130 'b')).length = 128 :=
  ⟨(alt_text_amended ("hi".toList)).1 (by decide),
   ((alt_text_amended (List.replicate 130 'b')).2 (by decide)).2⟩

/-- C7: the fallback trend fetch of scripts/generate_html.py never propagates
a provider failure.  If the client constructor fails, if the trending-searches
call fails, or if the returned frame is empty (so the `iat` access raises),
the literal "World news" is returned; when every step succeeds, the first cell
of the frame is returned verbatim. -/
theorem fetch_trending_search_total :
    (∀ e d, fetchTrendingSearch (Except.error e) d = "World news".toList) ∧
    (∀ e, fetchTrendingSearch (Except.ok ()) (Except.error e) = "World news".toList) ∧
    (fetchTrendingSearch (Except.ok ()) (Except.ok []) = "World news".toList) ∧
    (∀ top rest, fetchTrendingSearch (Except.ok ()) (Except.ok (top :: rest)) = top) :=
  ⟨fun _ _ => rfl, fun _ => rfl, rfl, fun _ _ => rfl⟩

/-- C8, counterexample: `raise_for_status` raises only for 4xx/5xx codes, so
for the non-2xx status 301 `publish_article` does not raise and returns the
parsed body, refuting the claimed `raises iff not 2xx`. -/
theorem publish_not_2xx_cex :
    publishArticle 301 ("ok".toList) = Except.ok ("ok".toList) ∧
    ¬ (200 ≤ 301 ∧ 301 < 300) := by
  constructor
  · rfl
  · omega

/-- C8, amended: `publish_article` raises an error carrying the CMS status
code and body if and only if the status is 4xx or 5xx; in particular every
2xx response (indeed every status below 400) returns the parsed JSON body
unmodified. -/
theorem publish_amended (status : Nat) (body : List Char) :
    (publishArticle status body = Except.error (status, body) ↔
      (400 ≤ status ∧ status < 600)) ∧
    (200 ≤ status ∧ status < 300 → publishArticle status body = Except.ok body) := by
  have hr : (raiseForStatus status = true) ↔ (400 ≤ status ∧ status < 600) := by
    unfold raiseForStatus
    simp
  constructor
  · constructor
    · intro h
      by_contra hc
      have hf : raiseForStatus status = false := by
        rcases Bool.eq_false_or_eq_true (raiseForStatus status) with hb | hb
        · exact absurd (hr.mp hb) hc
        · exact hb
      unfold publishArticle at h
      rw [hf] at h
      simp at h
    · intro h
      unfold publishArticle
      rw [hr.mpr h]
      rfl
  · intro h
    have hf : raiseForStatus status = false := by
      rcases Bool.eq_false_or_eq_true (raiseForStatus status) with hb | hb
      · have := hr.mp hb
        omega
      · exact hb
    unfold publishArticle
    rw [hf]
    rfl

/-- Witness for the amended C8 theorem at statuses 502 and 201. -/
theorem publish_amended_w :
    publishArticle 502 ("err".toList) = Except.error (502, "err".toList) ∧
    publishArticle 201 ("ok".toList) = Except.ok ("ok".toList) :=
  ⟨(publish_amended 502 ("err".toList)).1.mpr (by omega),
   (publish_amended 201 ("ok".toList)).2 (by omega)⟩

/-- C2: `collect_trends_task` (celery_app.py line 54) calls
`fetch_trending_searches(country=country, category=category, period=period)`,
but the signature of `fetch_trending_searches`
(trends_crawler/crawler.py line 14) has formals `country_code` and `category`
only, so the call raises `TypeError` for every input instead of delegating and
returning the stamped records. -/
theorem collect_trends_task_type_error (country category : List Char)
    (period : Option (List Char)) (nowIso : List Char)
    (providerTitles : List (List Char)) :
    collectTrendsTask country category period nowIso providerTitles =
      Except.error "TypeError: fetch_trending_searches got an unexpected keyword argument".toList := by
  rfl

/-- C1: `generate_content_task` (celery_app.py lines 77-97) fails for every
request.  Its call `generate_article(trend_title=..., country=..., category=...)`
does not bind against the signature `generate_article(topic, language)` of
article_generator/generator.py, so it raises `TypeError`; and even if an
article generator accepting those keywords were substituted, the following
statement `image_url, alt_text = generate_image(...)` tuple-unpacks the
three-key dict returned by image_creator/creator.py and raises `ValueError`.
The publisher is never reached and no payload is ever published. -/
theorem generate_content_task_type_error (country category title : List Char)
    (articleData : List (List Char × List Char)) (imageUrl : List Char)
    (cmsStatus : Nat) (cmsBody : List Char) (p u : List Char) :
    generateContentTask country category title articleData imageUrl cmsStatus cmsBody =
      Except.error "TypeError: generate_article got an unexpected keyword argument".toList ∧
    tupleUnpack2 ((generate_image p ("1024x1024").toList u).map Prod.fst) =
      Except.error "ValueError: values to unpack do not number two".toList :=
  ⟨rfl, rfl⟩

theorem isPrefixOf_infix (o : Char) (os s : List Char)
    (h : (o :: os).isPrefixOf s = true) : (o :: os) <:+: s :=
  (List.isPrefixOf_iff_prefix.mp h).isInfix

theorem replace_of_not_infix (o : Char) (os new : List Char) :
    ∀ s, ¬ ((o :: os) <:+: s) → pyReplace s (o :: os) new = s := by
  intro s
  induction s with
  | nil =>
    intro _
    rw [pyReplace_nil, if_neg (by simp)]
  | cons c cs ih =>
    intro h
    rw [pyReplace_cons]
    rw [if_neg (fun hp => h ( isPrefixOf_infix o os (c :: cs) hp))]
    rw [ih (fun hin => h (List.infix_cons hin))]

theorem new_infix_replace (o : Char) (os new : List Char) :
    ∀ s, (o :: os) <:+: s → new <:+: pyReplace s (o :: os) new := by
  intro s
  induction s with
  | nil =>
    intro h
    exact absurd (List.eq_nil_of_infix_nil h) (by simp)
  | cons c cs ih =>
    intro h
    rw [pyReplace_cons]
    by_cases hp : (o :: os).isPrefixOf (c :: cs) = true
    · rw [if_pos hp]
      exact (List.prefix_append new _).isInfix
    · rw [if_neg hp]
      have hcs : (o :: os) <:+: cs := by
        rcases List.infix_cons_iff.mp h with h1 | h1
        · exact absurd (List.isPrefixOf_iff_prefix.mpr h1) hp
        · exact h1
      exact List.infix_cons (ih hcs)

theorem borderfree_not_prefix (u x y : List Char) (hbf : BorderFree u)
    (hu : u ≠ []) (hx : x ≠ []) (hinf : ¬ (u <:+: x)) :
    ¬ (u <+: (x ++ u ++ y)) := by
  intro hpre
  have htake : u = (x ++ u ++ y).take u.length := List.prefix_iff_eq_take.mp hpre
  by_cases hlen : u.length ≤ x.length
  · have h2 : (x ++ u ++ y).take u.length = x.take u.length := by
      rw [List.append_assoc, List.take_append_of_le_length hlen]
    rw [h2] at htake
    exact hinf (List.prefix_iff_eq_take.mpr htake).isInfix
  · push_neg at hlen
    have hxpos : 0 < x.length := List.length_pos.mpr hx
    have h2 : (x ++ u ++ y).take u.length
        = x ++ (u ++ y).take (u.length - x.length) := by
      rw [List.append_assoc, List.take_append_eq_append_take,
        List.take_of_length_le (by omega)]
    have h3 : (u ++ y).take (u.length - x.length) = u.take (u.length - x.length) := by
      rw [List.take_append_of_le_length (by omega)]
    rw [h2, h3] at htake
    have h4 : u.drop x.length = u.take (u.length - x.length) := by
      conv_lhs => rw [htake]
      rw [List.drop_left]
    have h5 : u.drop (u.length - (u.length - x.length)) = u.take (u.length - x.length) := by
      rw [show u.length - (u.length - x.length) = x.length from by omega]
      exact h4
    exact hbf (u.length - x.length) (by omega) (by omega) h5

theorem replace_append_first (o : Char) (os : List Char)
    (hbf : BorderFree (o :: os)) (new : List Char) :
    ∀ x y, ¬ ((o :: os) <:+: x) →
      pyReplace (x ++ (o :: os) ++ y) (o :: os) new
        = x ++ new ++ pyReplace y (o :: os) new := by
  intro x
  induction x with
  | nil =>
    intro y _
    simp only [List.nil_append]
    have hsplit : (o :: os) ++ y = o :: (os ++ y) := rfl
    rw [hsplit, pyReplace_cons,
      if_pos (List.isPrefixOf_iff_prefix.mpr (by
        rw [← hsplit]
        exact List.prefix_append (o :: os) y)),
      List.drop_left]
  | cons a x1 ih =>
    intro y hninf
    have hx1 : ¬ ((o :: os) <:+: x1) := fun hin => hninf (List.infix_cons hin)
    have hassoc : (a :: x1) ++ (o :: os) ++ y = a :: (x1 ++ (o :: os) ++ y) := by simp
    rw [hassoc, pyReplace_cons]
    have hnp : ¬ ((o :: os).isPrefixOf (a :: (x1 ++ (o :: os) ++ y)) = true) := by
      intro hp
      have hpre := List.isPrefixOf_iff_prefix.mp hp
      rw [← hassoc] at hpre
      exact borderfree_not_prefix (o :: os) (a :: x1) y hbf (by simp) (by simp) hninf hpre
    rw [if_neg hnp, ih y hx1]
    simp

theorem pyReplace_skip (u new s : List Char) (hu : u ≠ []) (h : ¬ (u <:+: s)) :
    pyReplace s u new = s := by
  obtain ⟨o, os, ho⟩ := List.exists_cons_of_ne_nil hu
  subst ho
  exact replace_of_not_infix o os new s h

theorem pyReplace_keeps_new (u new s : List Char) (hu : u ≠ []) (h : u <:+: s) :
    new <:+: pyReplace s u new := by
  obtain ⟨o, os, ho⟩ := List.exists_cons_of_ne_nil hu
  subst ho
  exact new_infix_replace o os new s h

theorem pyReplace_append_first (u : List Char) (hbf : BorderFree u) (hu : u ≠ [])
    (new x y : List Char) (hx : ¬ (u <:+: x)) :
    pyReplace (x ++ u ++ y) u new = x ++ new ++ pyReplace y u new := by
  obtain ⟨o, os, ho⟩ := List.exists_cons_of_ne_nil hu
  subst ho
  exact replace_append_first o os hbf new x y hx

theorem borderFree_ulClose : BorderFree ulClose := by
  intro k hk h0
  have h5 : ulClose.length = 5 := rfl
  rw [h5] at hk
  interval_cases k <;> decide

theorem borderFree_bodyClose : BorderFree bodyClose := by
  intro k hk h0
  have h7 : bodyClose.length = 7 := rfl
  rw [h7] at hk
  interval_cases k <;> decide

theorem updateIndex_of_mem (r L : List Char) (hr : L <:+: r) : updateIndex r L = r := by
  unfold updateIndex
  rw [if_pos hr]

theorem updateIndex_no_container (c L : List Char) (hU : ¬ (ulClose <:+: c))
    (hB : ¬ (bodyClose <:+: c)) : updateIndex c L = c := by
  unfold updateIndex
  by_cases hL : L <:+: c
  · rw [if_pos hL]
  · rw [if_neg hL, if_neg hU,
      pyReplace_skip bodyClose (ulClose ++ bodyClose) c (by decide) hB,
      pyReplace_skip ulClose _ c (by decide) hU]

theorem updateIndex_adds_link (c L : List Char) (hU : ulClose <:+: c)
    (hL : ¬ (L <:+: c)) : L <:+: updateIndex c L := by
  unfold updateIndex
  rw [if_neg hL, if_pos hU]
  exact ((List.prefix_append L ulClose).isInfix).trans
    (pyReplace_keeps_new ulClose (L ++ ulClose) c (by decide) hU)

theorem updateIndex_idem (c L : List Char) :
    updateIndex (updateIndex c L) L = updateIndex c L := by
  by_cases hL : L <:+: c
  · have h1 : updateIndex c L = c := updateIndex_of_mem c L hL
    rw [h1, h1]
  · by_cases hU : ulClose <:+: c
    · exact updateIndex_of_mem _ L (updateIndex_adds_link c L hU hL)
    · by_cases hB : bodyClose <:+: c
      · have h4 : ulClose <:+: pyReplace c bodyClose (ulClose ++ bodyClose) :=
          ((List.prefix_append ulClose bodyClose).isInfix).trans
            (pyReplace_keeps_new bodyClose (ulClose ++ bodyClose) c (by decide) hB)
        have h6 : L <:+: updateIndex c L := by
          unfold updateIndex
          rw [if_neg hL, if_neg hU]
          exact ((List.prefix_append L ulClose).isInfix).trans
            (pyReplace_keeps_new ulClose (L ++ ulClose) _ (by decide) h4)
        exact updateIndex_of_mem _ L h6
      · have h1 : updateIndex c L = c := updateIndex_no_container c L hU hB
        rw [h1, h1]

set_option maxRecDepth 40000 in
/-- C5, counterexample: on the index page `<ul>` + newline + one existing item
+ `</ul>`, with a fresh link not yet present, the code inserts the link
immediately before the closing `</ul>` tag so that it becomes the LAST item;
the result differs from the first-item-after-opening-tag insertion that the
specification describes (modelled by `specInsertFirstItem`). -/
theorem insert_position_cex :
    updateIndex ("<ul>\n<li>old</li>\n</ul>".toList) ("<li>new</li>\n".toList)
      = "<ul>\n<li>old</li>\n<li>new</li>\n</ul>".toList ∧
    updateIndex ("<ul>\n<li>old</li>\n</ul>".toList) ("<li>new</li>\n".toList)
      ≠ specInsertFirstItem ("<ul>\n<li>old</li>\n</ul>".toList) ("<li>new</li>\n".toList) := by
  constructor
  · decide
  · decide

/-- C5, amended: when the page splits as `x ++ "</ul>" ++ y` with no `</ul>`
inside `x` (so this is the first closing tag) and the link text not yet
present, the link is inserted immediately BEFORE that first closing `</ul>`
tag — it becomes the last item of the list — and likewise before every later
`</ul>` occurrence inside `y`. -/
theorem insert_before_close_amended (x y L : List Char)
    (hx : ¬ (ulClose <:+: x)) (hL : ¬ (L <:+: (x ++ ulClose ++ y))) :
    updateIndex (x ++ ulClose ++ y) L
      = x ++ (L ++ ulClose) ++ pyReplace y ulClose (L ++ ulClose) := by
  unfold updateIndex
  rw [if_neg hL]
  have hU : ulClose <:+: (x ++ ulClose ++ y) := ⟨x, y, rfl⟩
  rw [if_pos hU]
  exact pyReplace_append_first ulClose borderFree_ulClose (by decide) (L ++ ulClose) x y hx

set_option maxRecDepth 40000 in
/-- Witness for the amended C5 theorem on a concrete page. -/
theorem insert_before_close_amended_w :
    updateIndex ("<ul>\n".toList ++ ulClose ++ "\n</body>".toList) ("<li>z</li>\n".toList)
      = "<ul>\n".toList ++ ("<li>z</li>\n".toList ++ ulClose)
        ++ pyReplace ("\n</body>".toList) ulClose ("<li>z</li>\n".toList ++ ulClose) :=
  insert_before_close_amended ("<ul>\n".toList) ("\n</body>".toList)
    ("<li>z</li>\n".toList) (by decide) (by decide)

set_option maxRecDepth 40000 in
/-- C6, counterexample: on a page holding two empty lists the insertion puts
the link before BOTH `</ul>` occurrences on the first run, and the second run
changes nothing, so the doubly-updated page contains the link twice, not
exactly once. -/
theorem index_update_twice_cex :
    pyCount
      (updateIndex
        (updateIndex ("<ul>\n</ul><ul>\n</ul>".toList) ("<li>x</li>\n".toList))
        ("<li>x</li>\n".toList))
      ("<li>x</li>\n".toList) = 2 ∧ (2 : Nat) ≠ 1 := by
  constructor
  · decide
  · decide

/-- C6, amended: the index update is idempotent in the sense that the second
application of the same link insertion always leaves the page unchanged, and
whenever the page contains the list container `</ul>` and does not yet contain
the link, the updated page contains the link (before every occurrence of
`</ul>`, hence exactly once only when `</ul>` occurs exactly once). -/
theorem index_update_idempotent_amended (c L : List Char) :
    updateIndex (updateIndex c L) L = updateIndex c L ∧
    (ulClose <:+: c → ¬ (L <:+: c) → L <:+: updateIndex c L) :=
  ⟨updateIndex_idem c L, fun hU hL => updateIndex_adds_link c L hU hL⟩

set_option maxRecDepth 40000 in
/-- Witness for the amended C6 theorem on a concrete page. -/
theorem index_update_idempotent_amended_w :
    updateIndex (updateIndex ("<ul>\n</ul>".toList) ("<li>y</li>\n".toList))
        ("<li>y</li>\n".toList)
      = updateIndex ("<ul>\n</ul>".toList) ("<li>y</li>\n".toList) ∧
    ("<li>y</li>\n".toList) <:+: updateIndex ("<ul>\n</ul>".toList) ("<li>y</li>\n".toList) :=
  ⟨(index_update_idempotent_amended ("<ul>\n</ul>".toList) ("<li>y</li>\n".toList)).1,
   (index_update_idempotent_amended ("<ul>\n</ul>".toList) ("<li>y</li>\n".toList)).2
     (by decide) (by decide)⟩

/-- C9: when the existing index page contains neither `</ul>` nor `</body>`,
both replacements are no-ops, so the pipeline writes the index back
byte-identical to the original and the link is not added anywhere, while the
article page itself is still rendered and written exactly as usual. -/
theorem index_untouched_without_container (keySet : Bool)
    (gen : Except (List Char) (List Char)) (trend today c : List Char)
    (hU : ¬ (ulClose <:+: c)) (hB : ¬ (bodyClose <:+: c)) :
    (mainRun keySet gen trend today (some c)).indexContent = c ∧
    (mainRun keySet gen trend today (some c)).articleHtml
      = createHtml (extractTitle (articleText keySet gen trend) trend)
          (articleText keySet gen trend) today := by
  refine ⟨?_, rfl⟩
  show updateIndex c _ = c
  exact updateIndex_no_container c _ hU hB

set_option maxRecDepth 40000 in
/-- Witness for the C9 theorem on a concrete container-free page. -/
theorem index_untouched_without_container_w :
    (mainRun false (Except.error []) ("T".toList) ("2024-06-01".toList)
      (some ("<p>plain</p>".toList))).indexContent = "<p>plain</p>".toList :=
  (index_untouched_without_container false (Except.error []) ("T".toList)
    ("2024-06-01".toList) ("<p>plain</p>".toList) (by decide) (by decide)).1

theorem pySplitNl_ne_nil (s : List Char) : pySplitNl s ≠ [] := by
  cases s with
  | nil => simp [pySplitNl]
  | cons c cs =>
    simp only [pySplitNl]
    by_cases h : c = '\n'
    · rw [if_pos h]
      simp
    · rw [if_neg h]
      cases hsp : pySplitNl cs with
      | nil => simp
      | cons l ls => simp

theorem pySplitNl_append_cons (pre : List Char) (hpre : '\n' ∉ pre) (rest : List Char) :
    pySplitNl (pre ++ '\n' :: rest) = pre :: pySplitNl rest := by
  induction pre with
  | nil => simp [pySplitNl]
  | cons a pre ih =>
    have ha : a ≠ '\n' := fun h => hpre (h ▸ List.mem_cons_self a pre)
    have hpre2 : '\n' ∉ pre := fun h => hpre (List.mem_cons_of_mem a h)
    simp only [List.cons_append, pySplitNl, List.append_eq]
    rw [if_neg ha, ih hpre2]

theorem articleLines_ne_nil (c : Char) (hns : pyIsSpace c = false) :
    ∀ s, c ∈ s → articleLines s ≠ [] := by
  intro s
  induction s with
  | nil =>
    intro hc
    cases hc
  | cons a cs ih =>
    intro hc
    unfold articleLines at ih ⊢
    simp only [pySplitNl]
    by_cases ha : a = '\n'
    · rw [if_pos ha]
      have hcs : c ∈ cs := by
        rcases List.mem_cons.mp hc with h1 | h1
        · exfalso
          rw [h1, ha] at hns
          simp [pyIsSpace] at hns
        · exact h1
      have hne := ih hcs
      simpa [List.filter_cons] using hne
    · rw [if_neg ha]
      cases hsp : pySplitNl cs with
      | nil => exact absurd hsp (pySplitNl_ne_nil cs)
      | cons l ls =>
        rcases List.mem_cons.mp hc with h1 | h1
        · subst h1
          have hpass : ((c :: l).any fun d => !(pyIsSpace d)) = true := by
            simp [List.any_cons, hns]
          simp [List.filter_cons, hpass]
        · have hih := ih h1
          rw [hsp] at hih
          by_cases hal : ((a :: l).any fun d => !(pyIsSpace d)) = true
          · simp [List.filter_cons, hal]
          · have hl : (l.any fun d => !(pyIsSpace d)) = false := by
              rcases Bool.eq_false_or_eq_true (l.any fun d => !(pyIsSpace d)) with hb | hb
              · exfalso
                apply hal
                simp [List.any_cons, hb]
              · exact hb
            simp only [List.filter_cons, hl] at hih
            simp only [List.filter_cons]
            rw [if_neg (by simp [hal])]
            simpa using hih

theorem fallback_lines_aux (trend tail : List Char) :
    articleLines ("News update for ".toList ++ trend ++ '\n' :: '\n' :: tail) ≠ [] := by
  apply articleLines_ne_nil 'N' (by decide)
  exact List.mem_append_left (trend ++ '\n' :: '\n' :: tail)
    (show ('N' ∈ "News update for ".toList) by decide)

theorem fallback_title_aux (trend tail : List Char) (hnl : '\n' ∉ trend) :
    extractTitle ("News update for ".toList ++ trend ++ '\n' :: '\n' :: tail) trend
      = "News update for ".toList ++ trend := by
  unfold extractTitle
  have hassoc : "News update for ".toList ++ trend ++ '\n' :: '\n' :: tail
      = ("News update for ".toList ++ trend) ++ '\n' :: ('\n' :: tail) := by
    simp
  have hsplit : pySplitNl (("News update for ".toList ++ trend) ++ '\n' :: ('\n' :: tail))
      = ("News update for ".toList ++ trend) :: pySplitNl ('\n' :: tail) := by
    apply pySplitNl_append_cons
    intro hmem
    rcases List.mem_append.mp hmem with h1 | h1
    · revert h1
      decide
    · exact hnl h1
  have hpass : (("News update for ".toList ++ trend).any fun d => !(pyIsSpace d)) = true := by
    apply List.any_eq_true.mpr
    refine ⟨'N', ?_, by decide⟩
    exact List.mem_append_left trend (show ('N' ∈ "News update for ".toList) by decide)
  rw [hassoc]
  unfold articleLines
  rw [hsplit, List.filter_cons, if_pos hpass]

set_option maxRecDepth 40000 in
/-- C10, counterexample: when the trend term itself contains a newline (here
"a\nb") and no key is configured, the extracted title is only the first line
of the substituted text, "News update for a", and not the full string
"News update for a\nb" that the claim asserts. -/
theorem fallback_title_cex :
    extractTitle (articleText false (Except.error []) ("a\nb".toList)) ("a\nb".toList)
      ≠ "News update for ".toList ++ "a\nb".toList ∧
    extractTitle (articleText false (Except.error []) ("a\nb".toList)) ("a\nb".toList)
      = "News update for a".toList := by
  constructor
  · decide
  · decide

/-- C10, amended: whenever the key is absent or generation raised, the
substituted fallback text always has a non-empty line (so the title-case
fallback to the trend term can only happen for a successful generation whose
text has no non-empty line), and the extracted title is exactly
"News update for {trend}" provided the trend term contains no newline (a
newline inside the trend term cuts the title at the first line). -/
theorem fallback_title_amended (trend : List Char) (keySet : Bool)
    (gen : Except (List Char) (List Char))
    (h : keySet = false ∨ ∃ e, gen = Except.error e) :
    articleLines (articleText keySet gen trend) ≠ [] ∧
    ('\n' ∉ trend →
      extractTitle (articleText keySet gen trend) trend
        = "News update for ".toList ++ trend) := by
  have hnn : ("\n\n".toList : List Char) = ['\n', '\n'] := rfl
  have hform : ∃ tail, articleText keySet gen trend
      = "News update for ".toList ++ trend ++ '\n' :: '\n' :: tail := by
    cases keySet with
    | false =>
      refine ⟨"Automatic article generation is disabled because the OPENAI_API_KEY environment variable is not set. Please add this secret in your repository settings to enable AI-generated news.".toList, ?_⟩
      unfold articleText
      rw [if_neg (by simp)]
      rw [hnn]
      simp
    | true =>
      rcases h with hk | ⟨e, hg⟩
      · exact absurd hk (by simp)
      · refine ⟨"An error occurred while generating the article: ".toList ++ e ++
          ".\n".toList ++ "Please check your API configuration and try again.".toList, ?_⟩
        rw [hg]
        unfold articleText
        rw [if_pos rfl]
        rw [hnn]
        simp
  obtain ⟨tail, htail⟩ := hform
  rw [htail]
  exact ⟨fallback_lines_aux trend tail, fun hnl => fallback_title_aux trend tail hnl⟩

/-- Witness for the amended C10 theorem at the concrete trend "Tea". -/
theorem fallback_title_amended_w :
    articleLines (articleText false (Except.error []) ("Tea".toList)) ≠ [] ∧
    extractTitle (articleText false (Except.error []) ("Tea".toList)) ("Tea".toList)
      = "News update for ".toList ++ "Tea".toList :=
  ⟨(fallback_title_amended ("Tea".toList) false (Except.error []) (Or.inl rfl)).1,
   (fallback_title_amended ("Tea".toList) false (Except.error []) (Or.inl rfl)).2
     (by decide)⟩
